import Mathlib

/-!
Verification of the deterministic function-packaging pipeline of fitglue-server
(`scripts/build_function_zips.py`) and of the heart-rate logic of the fixture
generator (`src/go/cmd/fit-gen/stubs/generate_test_data.py`).

The filesystem is shallowly embedded as a rose tree of named entries; file
contents are byte lists and modification times are naturals.  Python's string
comparison (used by `dirs.sort()` and `sorted(files)`) is code-point
lexicographic, embedded here as a structurally recursive Boolean comparison on
`String.data`, and `str.endswith` is embedded as a suffix check on the reversed
character list.  The zip container is modelled by the per-entry record that
reaches the output bytes: archive-relative name (forward-slash joined),
timestamp metadata, compression method, the `external_attr` word carrying the
staged file's permission bits, the host-OS-dependent `create_system` byte,
and the raw byte content, in the exact order the entries are written.
-/

namespace BuildZips

/-- Python string `<=`: code-point lexicographic comparison of character
lists (`s1 <= s2` on `str` compares code points left to right). -/
def charListLe : List Char → List Char → Bool
  | [], _ => true
  | _ :: _, [] => false
  | a :: as, b :: bs =>
    if a < b then true
    else if b < a then false
    else charListLe as bs

/-- Python `s1 <= s2` on strings. -/
def strLe (a b : String) : Bool := charListLe a.data b.data

/-- Suffix match on reversed character lists: `revPre p s` holds when `p` is a
prefix of `s` (both already reversed by the caller). -/
def revPre : List Char → List Char → Bool
  | [], _ => true
  | _ :: _, [] => false
  | a :: as, b :: bs => a == b && revPre as bs

/-- Python `s.endswith(pat)`. -/
def strEnds (s pat : String) : Bool := revPre pat.data.reverse s.data.reverse

/-- The ordering used on named entries: compare the name components with
Python's string order.  The payload is ignored, matching the fact that the
script sorts bare name strings. -/
def pairLe {α : Type} (a b : String × α) : Prop := strLe a.1 b.1 = true

instance {α : Type} : DecidableRel (@pairLe α) := fun a b =>
  inferInstanceAs (Decidable (strLe a.1 b.1 = true))

/-- `list.sort()` / `sorted(list)` on named entries: Python's sort is a stable
ascending sort by the string key. -/
def sortPairs {α : Type} (l : List (String × α)) : List (String × α) :=
  l.insertionSort pairLe

/-! ### The filesystem model -/

/-- A filesystem tree: a regular file carries its byte content, its
modification time and its permission mode bits (both as reported by
`os.stat`); a directory carries its named children in the (arbitrary) order
the filesystem reports them. -/
inductive FSTree where
  | file (content : List Nat) (mtime : Nat) (mode : Nat)
  | dir (children : List (String × FSTree))

/-- The entry names directly contained in a directory listing. -/
def namesOf (cs : List (String × FSTree)) : List String := cs.map Prod.fst

/-- The regular files directly contained in a listing, with content, mtime
and mode. -/
def childFiles (cs : List (String × FSTree)) : List (String × List Nat × Nat × Nat) :=
  cs.filterMap fun e => match e.2 with
    | .file c m md => some (e.1, c, m, md)
    | .dir _ => none

/-- The subdirectories directly contained in a listing. -/
def childDirs (cs : List (String × FSTree)) : List (String × FSTree) :=
  cs.filter fun e => match e.2 with
    | .dir _ => true
    | .file _ _ _ => false

mutual
/-- The enumeration phase of the Archive Writer (`os.walk` over the staging
directory, lines 44-52): in each directory, first the files of that directory
with names sorted, then the non-`cmd` subdirectories with names sorted, each
walked recursively.  Each produced row is the staging-relative path (as
components), the file's byte content, mtime and mode. -/
def walkCollect : FSTree → List (List String × List Nat × Nat × Nat)
  | .file _ _ _ => []
  | .dir cs =>
    (sortPairs (childFiles cs)).map (fun e => ([e.1], e.2))
    ++ (sortPairs (walkSub cs)).flatMap (fun e => e.2.map fun r => (e.1 :: r.1, r.2))

/-- The recursive walks of the non-`cmd` subdirectory children, paired with
their names, in listing order (the `dirs[:] = [d for d in dirs if d != 'cmd']`
filter). -/
def walkSub : List (String × FSTree) →
    List (String × List (List String × List Nat × Nat × Nat))
  | [] => []
  | (n, t) :: rest =>
    match t with
    | .file _ _ _ => walkSub rest
    | .dir _ => if n == "cmd" then walkSub rest else (n, walkCollect t) :: walkSub rest
end

mutual
/-- Apply `f` to the `(content, mtime, mode)` payload of every file in the
tree, leaving names and directory structure unchanged.  Instantiated below to
erase mtimes, to erase mtimes and modes, and to erase all payloads (leaving
only the path structure). -/
def mapContents (f : List Nat × Nat × Nat → List Nat × Nat × Nat) : FSTree → FSTree
  | .file c m md => .file (f (c, m, md)).1 (f (c, m, md)).2.1 (f (c, m, md)).2.2
  | .dir cs => .dir (mapChildren f cs)

def mapChildren (f : List Nat × Nat × Nat → List Nat × Nat × Nat) :
    List (String × FSTree) → List (String × FSTree)
  | [] => []
  | (n, t) :: rest => (n, mapContents f t) :: mapChildren f rest
end

/-- Erase every mtime (contents and modes kept): two trees have equal
`clearMtimes`-images exactly when they have the same named structure,
per-file byte contents and per-file permission modes. -/
def clearMtimes : FSTree → FSTree := mapContents (fun p => (p.1, 0, p.2.2))

/-- Erase mtimes and permission modes: two trees have equal
`clearStat`-images exactly when they have the same named structure and
per-file byte contents — identical file sets and identical byte contents,
with nothing else pinned. -/
def clearStat : FSTree → FSTree := mapContents (fun p => (p.1, 0, 0))

/-- Erase contents, mtimes and modes: two trees have equal `shapeOf`-images
exactly when they have the same path-string structure. -/
def shapeOf : FSTree → FSTree := mapContents (fun _ => ([], 0, 0))

mutual
/-- Canonicalize listing order: recursively sort every directory's children by
name.  `canon t₁ = canon t₂` says the two trees present identical file sets
(same names, nesting, contents and mtimes), differing at most in the order the
filesystem reports entries. -/
def canon : FSTree → FSTree
  | .file c m md => .file c m md
  | .dir cs => .dir (sortPairs (canonChildren cs))

def canonChildren : List (String × FSTree) → List (String × FSTree)
  | [] => []
  | (n, t) :: rest => (n, canon t) :: canonChildren rest
end

/-- Entry names are pairwise distinct: no sequence of distinct strings. -/
def nodupNames : List String → Bool
  | [] => true
  | n :: rest => !(rest.contains n) && nodupNames rest

mutual
/-- A real on-disk tree: the names in every directory listing are pairwise
distinct (a filesystem cannot hold two entries of the same name in one
directory). -/
def validTree : FSTree → Bool
  | .file _ _ _ => true
  | .dir cs => nodupNames (namesOf cs) && validChildren cs

def validChildren : List (String × FSTree) → Bool
  | [] => true
  | (_, t) :: rest => validTree t && validChildren rest
end

/-! ### The archive model -/

/-- One entry of the output archive: the archive-relative name
(forward-slash separated), the timestamp metadata, the compression method,
the `external_attr` word (`ZipInfo.from_file` packs the staged file's
permission mode bits into it), the `create_system` byte (`ZipInfo.__init__`
sets it from the host OS), and the raw byte content.  All of these are
serialized into the archive (local headers, file data, and central
directory), and entries are written in list order, so equality of entry
lists models byte-identical archives. -/
structure ZipEntry where
  arcname : String
  date_time : Nat × Nat × Nat × Nat × Nat × Nat
  compress_type : Nat
  external_attr : Nat
  create_system : Nat
  data : List Nat
deriving DecidableEq, Repr

/-- `zipfile.ZIP_STORED`: no compression. -/
def ZIP_STORED : Nat := 0

/-- `zipfile.ZIP_DEFLATED`: deflate compression. -/
def ZIP_DEFLATED : Nat := 8

/-- `ZipInfo.from_file` packs the staged file's permission bits into the
upper 16 bits of `external_attr`: `(st.st_mode & 0xFFFF) << 16`. -/
def zipExternalAttr (mode : Nat) : Nat := (mode % 65536) * 65536

/-- The body of the archive-writing loop (lines 54-63 of the script): build a
`ZipInfo` via `zipfile.ZipInfo.from_file(file_path, arcname)` — arcname joined
with forward slashes, timestamp taken from the file's mtime through the host's
timezone-dependent `time.localtime` (the `localtime` parameter),
`external_attr` from the file's `st_mode`, `create_system` from the host OS
(`createSystem` is 0 on Windows and 3 elsewhere, per `ZipInfo.__init__`), and
compression method left at the `ZipInfo.__init__` default `ZIP_STORED`
(`from_file` does not set `compress_type`, and `ZipFile.writestr` takes the
method from the `ZipInfo` it is given, not from the `ZipFile` constructor's
`ZIP_DEFLATED` argument) — then override `zinfo.date_time` with the fixed
epoch `(1980, 1, 1, 0, 0, 0)` and write the file's bytes via `writestr`.
Only `date_time` is overridden: `external_attr` and `create_system` reach
the archive bytes untouched. -/
def zipEntryOf (createSystem : Nat) (localtime : Nat → Nat × Nat × Nat × Nat × Nat × Nat)
    (row : List String × List Nat × Nat × Nat) : ZipEntry :=
  let zinfo : ZipEntry :=
    { arcname := String.intercalate "/" row.1
      date_time := localtime row.2.2.1
      compress_type := ZIP_STORED
      external_attr := zipExternalAttr row.2.2.2
      create_system := createSystem
      data := row.2.1 }
  { zinfo with date_time := (1980, 1, 1, 0, 0, 0) }

/-- The archive produced from a staging tree: one entry per walked file, in
walk order (lines 42-63 of the script), on a host whose `ZipInfo`
`create_system` value is `createSystem`. -/
def zipEntries (createSystem : Nat) (localtime : Nat → Nat × Nat × Nat × Nat × Nat × Nat)
    (t : FSTree) : List ZipEntry :=
  (walkCollect t).map (zipEntryOf createSystem localtime)

/-- The `(path, content, mode)` part of the walk — everything the final
archive can depend on, besides the host OS, once the timestamp override has
discarded the mtime. -/
def walkPC (t : FSTree) : List (List String × List Nat × Nat) :=
  (walkCollect t).map (fun r => (r.1, r.2.1, r.2.2.2))

/-! ### The staging pipeline -/

/-- The private-root exclusion test used by `ignore_patterns` (lines 25-27):
test files (`*_test.go` suffix), the entry point `main.go`, and anything named
`cmd`. -/
def privateExcluded (f : String) : Bool :=
  strEnds f "_test.go" || f == "main.go" || f == "cmd"

/-- The `ignore_patterns` callback of `create_function_zip` (lines 22-28):
given a directory path and the names it directly contains, return the names to
ignore (skip test files, the `cmd` directory, and `main.go`), preserving
listing order.  The directory argument is unused by the source. -/
def ignore_patterns (dir : String) (files : List String) : List String :=
  files.filter privateExcluded

/-- The callback produced by `shutil.ignore_patterns('*_test.go')`, used for
the shared `pkg` root (line 35): only test files are excluded. -/
def sharedIgnoreCallback (dir : String) (files : List String) : List String :=
  files.filter (fun f => strEnds f "_test.go")

mutual
/-- `shutil.copytree(src, dst, ignore=ig)`: at every directory level, compute
`ig(dir, names)` on that level's listing and copy only the entries whose name
is not in the returned list, recursing into subdirectories with the same
callback.  `copy2` preserves content, mtime and permission mode.  (The
pipeline only ever calls this on directories; on a file argument the model is
the identity.) -/
def copytree (ig : String → List String → List String) : String → FSTree → FSTree
  | _, .file c m md => .file c m md
  | path, .dir cs => .dir (copyChildren ig path (ig path (namesOf cs)) cs)

def copyChildren (ig : String → List String → List String) :
    String → List String → List (String × FSTree) → List (String × FSTree)
  | _, _, [] => []
  | path, ignored, (n, t) :: rest =>
    if ignored.contains n then copyChildren ig path ignored rest
    else (n, copytree ig (path ++ "/" ++ n) t) :: copyChildren ig path ignored rest
end

mutual
/-- `bad`-freeness at every depth: no entry name anywhere in the tree
satisfies `bad`. -/
def checkNames (bad : String → Bool) : FSTree → Bool
  | .file _ _ _ => true
  | .dir cs => checkChildren bad cs

def checkChildren (bad : String → Bool) : List (String × FSTree) → Bool
  | [] => true
  | (n, t) :: rest => !(bad n) && checkNames bad t && checkChildren bad rest
end

/-- Name lookup in a directory listing (first match, as on a real filesystem
where names are unique). -/
def lookupName (n : String) : List (String × FSTree) → Option FSTree
  | [] => none
  | (m, t) :: rest => if m == n then some t else lookupName n rest

/-- Resolve a relative path against a tree. -/
def findAt : FSTree → List String → Option FSTree
  | t, [] => some t
  | FSTree.file _ _ _, _ :: _ => none
  | FSTree.dir cs, n :: p =>
    match lookupName n cs with
    | some t => findAt t p
    | none => none

/-- Per-unit packaging errors, named after the I/O exceptions the script can
propagate: `DestinationExists` is `FileExistsError` from `mkdir`;
`SourceNotFound` is `FileNotFoundError`/`NotADirectoryError` from `copytree`
of the private root; `CopyFailed p` is the failure of `copy2`/`copytree` at
path `p` (e.g. a missing manifest file); `WriteFailed` is a failure to create
or write the output archive. -/
inductive PkgError where
  | DestinationExists
  | SourceNotFound
  | CopyFailed (path : String)
  | WriteFailed
deriving DecidableEq, Repr

/-- What `create_function_zip` leaves behind: the returned value (the archive's
entry list on success, the propagated exception otherwise) and whether the
staging directory is still on disk after the call terminates. -/
structure Outcome where
  result : Except PkgError (List ZipEntry)
  tempPersists : Bool
deriving Repr

def resultOk : Outcome → Bool :=
  fun o => match o.result with
    | Except.ok _ => true
    | Except.error _ => false

/-- `if temp_dir.exists(): shutil.rmtree(temp_dir)` (lines 16-17): after this
statement the staging path does not exist, whatever was there before. -/
def rmtreeIfExists : Option FSTree → Option FSTree
  | some _ => none
  | none => none

/-- `temp_dir.mkdir(parents=True)` (line 18): creates an empty directory;
`exist_ok` is left at `False`, so it raises `FileExistsError` if the path
still exists. -/
def mkdirFresh : Option FSTree → Except PkgError FSTree
  | some _ => Except.error PkgError.DestinationExists
  | none => Except.ok (FSTree.dir [])

/-- Lines 33-35: `if shared_pkg.exists(): shutil.copytree(shared_pkg,
temp_dir / "pkg", ignore=shutil.ignore_patterns('*_test.go'))`.  A missing
shared root is skipped; a directory is staged under the fixed name `pkg`;
if the path exists but is a regular file, `copytree` raises
(`NotADirectoryError`), modelled as `CopyFailed "pkg"`. -/
def stagePkg (src_dir : FSTree) (staged1 : List (String × FSTree)) :
    Except PkgError (List (String × FSTree)) :=
  match findAt src_dir ["pkg"] with
  | some (FSTree.dir pcs) =>
    Except.ok (staged1 ++ [("pkg", copytree sharedIgnoreCallback "" (FSTree.dir pcs))])
  | some (FSTree.file _ _ _) => Except.error (PkgError.CopyFailed "pkg")
  | none => Except.ok staged1

/-- The packaging of one unit (`create_function_zip`, lines 7-68), as a
function of the unit name, the tree at `src_dir`, whatever is on disk at the
staging path `output_dir/<name>_temp` when the call starts (`tempPre`),
whether the archive file can be created and written (`zipWritable`), the
host OS's `ZipInfo` `create_system` value (`createSystem`), and the host's
`time.localtime` conversion.  Each failing step models the Python
exception propagating out of the function; the staging directory persists in
exactly the paths where the exception escapes after `mkdir` and before the
final `shutil.rmtree(temp_dir)` (line 66), which runs only on the success
path.  `copytree` callback paths are passed as `""` since both callbacks
ignore their directory argument. -/
def create_function_zip (function_name : String) (src_dir : FSTree)
    (tempPre : Option FSTree) (zipWritable : Bool) (createSystem : Nat)
    (localtime : Nat → Nat × Nat × Nat × Nat × Nat × Nat) : Outcome :=
  match mkdirFresh (rmtreeIfExists tempPre) with
  | Except.error e => { result := Except.error e, tempPersists := false }
  | Except.ok _ =>
    match findAt src_dir ["functions", function_name] with
    | some (FSTree.dir fcs) =>
      match stagePkg src_dir
          [(function_name, copytree ignore_patterns "" (FSTree.dir fcs))] with
      | Except.error e => { result := Except.error e, tempPersists := true }
      | Except.ok staged =>
        match findAt src_dir ["go.mod"] with
        | some (FSTree.file gmc gmm gmo) =>
          match findAt src_dir ["go.sum"] with
          | some (FSTree.file gsc gsm gso) =>
            let staging := FSTree.dir (staged ++
              [("go.mod", FSTree.file gmc gmm gmo),
               ("go.sum", FSTree.file gsc gsm gso)])
            if zipWritable then
              { result := Except.ok (zipEntries createSystem localtime staging)
                tempPersists := false }
            else
              { result := Except.error PkgError.WriteFailed, tempPersists := true }
          | _ =>
            { result := Except.error (PkgError.CopyFailed "go.sum")
              tempPersists := true }
        | _ =>
          { result := Except.error (PkgError.CopyFailed "go.mod")
            tempPersists := true }
    | _ => { result := Except.error PkgError.SourceNotFound, tempPersists := true }

/-- The enumeration's path sequence. -/
def walkPaths (t : FSTree) : List (List String) := (walkCollect t).map (fun r => r.1)

/-! ### Concrete instances used by witnesses and counterexamples -/

/-- A sample host `time.localtime` conversion. -/
def ltA : Nat → Nat × Nat × Nat × Nat × Nat × Nat := fun _ => (1999, 1, 2, 3, 4, 5)

/-- A different host `time.localtime` conversion (different timezone/clock). -/
def ltB : Nat → Nat × Nat × Nat × Nat × Nat × Nat := fun m => (2024, 12, 31, 23, 59, m % 60)

/-- The spec's concrete scenario: unit `u` whose private root holds exactly
`a.go`, `a_test.go`, `main.go` and `cmd/tool.go`; no shared `pkg` root; the
manifest files present at the source root. -/
def srcExample : FSTree :=
  FSTree.dir [
    ("functions", FSTree.dir [
      ("u", FSTree.dir [
        ("a.go", FSTree.file [97] 5 420),
        ("a_test.go", FSTree.file [98] 6 420),
        ("main.go", FSTree.file [99] 7 420),
        ("cmd", FSTree.dir [("tool.go", FSTree.file [100] 8 420)])])]),
    ("go.mod", FSTree.file [1] 11 420),
    ("go.sum", FSTree.file [2] 12 420)]

/-- A source root whose shared `pkg` directory contains a `main.go`. -/
def srcSharedMain : FSTree :=
  FSTree.dir [
    ("functions", FSTree.dir [("u", FSTree.dir [("a.go", FSTree.file [97] 5 420)])]),
    ("pkg", FSTree.dir [("lib.go", FSTree.file [51] 10 420),
      ("main.go", FSTree.file [50] 9 420)]),
    ("go.mod", FSTree.file [1] 11 420),
    ("go.sum", FSTree.file [2] 12 420)]

/-- A source root with no `go.mod`. -/
def srcNoManifest : FSTree :=
  FSTree.dir [
    ("functions", FSTree.dir [("u", FSTree.dir [("a.go", FSTree.file [97] 5 420)])]),
    ("go.sum", FSTree.file [2] 12 420)]

/-- A staging tree listed in one order, with one set of mtimes. -/
def tWitA : FSTree := FSTree.dir [("b.go", FSTree.file [2] 100 420),
  ("a.go", FSTree.file [1] 200 493), ("d", FSTree.dir [("c.go", FSTree.file [3] 300 420)])]

/-- The same file set, contents and modes as `tWitA`, listed in another
order, with different mtimes. -/
def tWitB : FSTree := FSTree.dir [("d", FSTree.dir [("c.go", FSTree.file [3] 42 420)]),
  ("a.go", FSTree.file [1] 7 493), ("b.go", FSTree.file [2] 9 420)]

/-- The same path structure as `tWitB` but different contents and modes as
well. -/
def tWitC : FSTree := FSTree.dir [("d", FSTree.dir [("c.go", FSTree.file [30, 1] 42 444)]),
  ("a.go", FSTree.file [10] 7 100), ("b.go", FSTree.file [] 9 200)]

/-- One file whose permission mode is `0o644` (420). -/
def tAttrA : FSTree := FSTree.dir [("a.go", FSTree.file [1] 5 420)]

/-- The identical file set and byte contents, but the file's permission mode
is `0o755` (493) and its mtime differs. -/
def tAttrB : FSTree := FSTree.dir [("a.go", FSTree.file [1] 9 493)]

end BuildZips

namespace GenTestData

/-- Python truthiness of the `static_hr` argument (`None` or an int, as the
generator passes it): `None` and `0` are falsy, every other int is truthy —
this is what `if static_hr:` tests. -/
def pyTruthy : Option Int → Bool
  | none => false
  | some v => v != 0

/-- Python `int()` applied to a float: truncation toward zero. -/
noncomputable def pyTrunc (x : ℝ) : ℤ := if 0 ≤ x then ⌊x⌋ else ⌈x⌉

/-- `140 + int(20 * math.sin(i / 10.0))` (line 19 of
`generate_test_data.py`), with `math.sin` read as the real sine. -/
noncomputable def sineHR (i : ℕ) : ℤ := 140 + pyTrunc (20 * Real.sin (i / 10))

/-- The `heart_rate` field of record `i` as `generate_activity` computes it
(lines 17-22): absent unless `has_hr`; when present, the sine-wave value —
overridden by `static_hr` only when `static_hr` is truthy. -/
noncomputable def generate_activity_heart_rate (has_hr : Bool)
    (static_hr : Option Int) (i : ℕ) : Option Int :=
  if has_hr then
    some (if pyTruthy static_hr then static_hr.getD 0 else sineHR i)
  else none

end GenTestData

namespace BuildZips

theorem charListLe_cons {a b : Char} {as bs : List Char} :
    charListLe (a :: as) (b :: bs) = true ↔ a < b ∨ (a = b ∧ charListLe as bs = true) := by
  simp only [charListLe]
  rcases lt_trichotomy a b with h | h | h
  · simp [h]
  · subst h; simp [lt_irrefl]
  · simp [h, lt_asymm h, ne_of_gt h]

theorem charListLe_total : ∀ as bs, charListLe as bs = true ∨ charListLe bs as = true := by
  intro as
  induction as with
  | nil => intro bs; left; rfl
  | cons a as ih =>
    intro bs
    cases bs with
    | nil => right; rfl
    | cons b bs =>
      rcases lt_trichotomy a b with h | h | h
      · left; rw [charListLe_cons]; exact Or.inl h
      · subst h
        rcases ih bs with h' | h' <;> [left; right] <;>
          rw [charListLe_cons] <;> exact Or.inr ⟨rfl, h'⟩
      · right; rw [charListLe_cons]; exact Or.inl h

theorem charListLe_trans : ∀ as bs cs, charListLe as bs = true → charListLe bs cs = true →
    charListLe as cs = true
  | [], _, _, _, _ => rfl
  | _ :: _, [], _, h₁, _ => by simp [charListLe] at h₁
  | _ :: _, _ :: _, [], _, h₂ => by simp [charListLe] at h₂
  | a :: as, b :: bs, c :: cs, h₁, h₂ => by
    rw [charListLe_cons] at h₁ h₂ ⊢
    rcases h₁ with h₁ | ⟨rfl, h₁⟩
    · rcases h₂ with h₂ | ⟨rfl, h₂⟩
      · exact Or.inl (h₁.trans h₂)
      · exact Or.inl h₁
    · rcases h₂ with h₂ | ⟨rfl, h₂⟩
      · exact Or.inl h₂
      · exact Or.inr ⟨rfl, charListLe_trans as bs cs h₁ h₂⟩

theorem charListLe_antisymm : ∀ as bs, charListLe as bs = true → charListLe bs as = true →
    as = bs
  | [], [], _, _ => rfl
  | [], _ :: _, _, h₂ => by simp [charListLe] at h₂
  | _ :: _, [], h₁, _ => by simp [charListLe] at h₁
  | a :: as, b :: bs, h₁, h₂ => by
    rw [charListLe_cons] at h₁ h₂
    rcases h₁ with h₁ | ⟨rfl, h₁⟩
    · rcases h₂ with h₂ | ⟨rfl, h₂⟩
      · exact absurd h₂ (lt_asymm h₁)
      · exact absurd h₁ (lt_irrefl _)
    · rcases h₂ with h₂ | ⟨_, h₂⟩
      · exact absurd h₂ (lt_irrefl _)
      · rw [charListLe_antisymm as bs h₁ h₂]

theorem strLe_antisymm {a b : String} (h₁ : strLe a b = true) (h₂ : strLe b a = true) :
    a = b := by
  cases a; cases b
  exact congrArg String.mk (charListLe_antisymm _ _ h₁ h₂)

instance {α : Type} : IsTotal (String × α) pairLe :=
  ⟨fun a b => charListLe_total a.1.data b.1.data⟩

instance {α : Type} : IsTrans (String × α) pairLe :=
  ⟨fun _ _ _ h₁ h₂ => charListLe_trans _ _ _ h₁ h₂⟩

theorem sortPairs_perm {α : Type} (l : List (String × α)) : (sortPairs l).Perm l :=
  List.perm_insertionSort pairLe l

theorem sortPairs_sorted {α : Type} (l : List (String × α)) :
    List.Sorted pairLe (sortPairs l) :=
  List.sorted_insertionSort pairLe l

theorem sortPairs_of_sorted {α : Type} {l : List (String × α)}
    (h : List.Sorted pairLe l) : sortPairs l = l :=
  h.insertionSort_eq

/-- Mapping over payloads (keeping the keys) commutes with sorting. -/
theorem sortPairs_map {α β : Type} (f : String × α → String × β)
    (hf : ∀ e, (f e).1 = e.1) (l : List (String × α)) :
    (sortPairs l).map f = sortPairs (l.map f) := by
  apply List.map_insertionSort
  intro a _ b _
  show pairLe a b ↔ pairLe (f a) (f b)
  unfold pairLe
  rw [hf a, hf b]

/-- Two sorted lists that are permutations of each other and have no duplicate
keys are equal: this is why per-level sorting makes the walk independent of
the filesystem's listing order. -/
theorem eq_of_perm_sorted_nodup {α : Type} : ∀ {l₁ l₂ : List (String × α)},
    l₁.Perm l₂ → List.Sorted pairLe l₁ → List.Sorted pairLe l₂ →
    (l₁.map Prod.fst).Nodup → l₁ = l₂
  | [], l₂, hp, _, _, _ => (hp.nil_eq).symm ▸ rfl
  | a :: l₁, l₂, hp, hs₁, hs₂, hn => by
    cases l₂ with
    | nil => exact absurd hp.symm.nil_eq (by simp)
    | cons b l₂ =>
      have hab : a = b := by
        have hbmem : b ∈ a :: l₁ := hp.symm.subset (List.mem_cons_self b l₂)
        rcases List.mem_cons.mp hbmem with h | h
        · exact h.symm
        · have hamem : a ∈ b :: l₂ := hp.subset (List.mem_cons_self a l₁)
          rcases List.mem_cons.mp hamem with h' | h'
          · exact h'
          · have h₁ : pairLe a b := List.rel_of_sorted_cons hs₁ b h
            have h₂ : pairLe b a := List.rel_of_sorted_cons hs₂ a h'
            have hkey : a.1 = b.1 := strLe_antisymm h₁ h₂
            simp only [List.map_cons, List.nodup_cons] at hn
            exact absurd (hkey ▸ (List.mem_map_of_mem Prod.fst h)) hn.1
      subst hab
      have hp' : l₁.Perm l₂ := hp.cons_inv
      have := eq_of_perm_sorted_nodup hp' hs₁.tail hs₂.tail
        ((List.nodup_cons.mp (by simpa using hn)).2)
      rw [this]

/-- Sorting is invariant under permutation of the input when keys are unique:
the sorted output is a function of the entry set alone. -/
theorem sortPairs_eq_of_perm {α : Type} {l₁ l₂ : List (String × α)}
    (hp : l₁.Perm l₂) (hn : (l₁.map Prod.fst).Nodup) :
    sortPairs l₁ = sortPairs l₂ := by
  apply eq_of_perm_sorted_nodup
    ((sortPairs_perm l₁).trans (hp.trans (sortPairs_perm l₂).symm))
    (sortPairs_sorted l₁) (sortPairs_sorted l₂)
  have : ((sortPairs l₁).map Prod.fst).Perm (l₁.map Prod.fst) :=
    (sortPairs_perm l₁).map Prod.fst
  exact this.nodup_iff.mpr hn

/-- Structural induction for `FSTree`, recursing into every child of a
directory. -/
theorem FSTree.inductionOn {P : FSTree → Prop}
    (hfile : ∀ c m md, P (FSTree.file c m md))
    (hdir : ∀ cs, (∀ e ∈ cs, P e.2) → P (FSTree.dir cs)) : ∀ t, P t
  | FSTree.file c m md => hfile c m md
  | FSTree.dir cs => hdir cs (fun e he => FSTree.inductionOn hfile hdir e.2)
termination_by t => sizeOf t
decreasing_by
  obtain ⟨n, t'⟩ := e
  have h1 : sizeOf (n, t') < sizeOf cs := List.sizeOf_lt_of_mem he
  simp only [Prod.mk.sizeOf_spec] at h1
  simp only [FSTree.dir.sizeOf_spec]
  omega

theorem childDirs_cons_file {n : String} {c : List Nat} {m md : Nat}
    {rest : List (String × FSTree)} :
    childDirs ((n, FSTree.file c m md) :: rest) = childDirs rest := rfl

theorem childDirs_cons_dir {n : String} {cs' : List (String × FSTree)}
    {rest : List (String × FSTree)} :
    childDirs ((n, FSTree.dir cs') :: rest) = (n, FSTree.dir cs') :: childDirs rest := rfl

theorem childFiles_cons_file {n : String} {c : List Nat} {m md : Nat}
    {rest : List (String × FSTree)} :
    childFiles ((n, FSTree.file c m md) :: rest) = (n, c, m, md) :: childFiles rest := rfl

theorem childFiles_cons_dir {n : String} {cs' : List (String × FSTree)}
    {rest : List (String × FSTree)} :
    childFiles ((n, FSTree.dir cs') :: rest) = childFiles rest := rfl

/-- `walkSub` in closed form: the non-`cmd` subdirectories, each paired with
its recursive walk. -/
theorem walkSub_eq : ∀ cs : List (String × FSTree),
    walkSub cs = ((childDirs cs).filter (fun e => !(e.1 == "cmd"))).map
      (fun e => (e.1, walkCollect e.2)) := by
  intro cs
  induction cs with
  | nil => rfl
  | cons e rest ih =>
    obtain ⟨n, t⟩ := e
    cases t with
    | file c m md => rw [childDirs_cons_file]; exact ih
    | dir cs' =>
      rw [childDirs_cons_dir, List.filter_cons]
      by_cases h : n == "cmd" <;> simp [walkSub, h, ih]

theorem childFiles_perm {cs₁ cs₂ : List (String × FSTree)} (h : cs₁.Perm cs₂) :
    (childFiles cs₁).Perm (childFiles cs₂) :=
  h.filterMap _

theorem childDirs_perm {cs₁ cs₂ : List (String × FSTree)} (h : cs₁.Perm cs₂) :
    (childDirs cs₁).Perm (childDirs cs₂) :=
  h.filter _

theorem childFiles_fst_sublist : ∀ cs : List (String × FSTree),
    ((childFiles cs).map Prod.fst).Sublist (cs.map Prod.fst) := by
  intro cs
  induction cs with
  | nil => simp [childFiles]
  | cons e rest ih =>
    obtain ⟨n, t⟩ := e
    cases t with
    | file c m md => simpa [childFiles] using ih.cons₂ n
    | dir cs' => simpa [childFiles] using ih.cons n

theorem childDirs_fst_sublist : ∀ cs : List (String × FSTree),
    ((childDirs cs).map Prod.fst).Sublist (cs.map Prod.fst) := by
  intro cs
  induction cs with
  | nil => simp [childDirs]
  | cons e rest ih =>
    obtain ⟨n, t⟩ := e
    cases t with
    | file c m md => simpa [childDirs] using ih.cons n
    | dir cs' => simpa [childDirs] using ih.cons₂ n

theorem mem_of_mem_childDirs {e : String × FSTree} {cs : List (String × FSTree)}
    (h : e ∈ childDirs cs) : e ∈ cs :=
  (List.mem_filter.mp h).1

theorem mapChildren_eq (f : List Nat × Nat × Nat → List Nat × Nat × Nat) :
    ∀ cs : List (String × FSTree),
    mapChildren f cs = cs.map (fun e => (e.1, mapContents f e.2)) := by
  intro cs
  induction cs with
  | nil => rfl
  | cons e rest ih => obtain ⟨n, t⟩ := e; simp [mapChildren, ih]

theorem canonChildren_eq : ∀ cs : List (String × FSTree),
    canonChildren cs = cs.map (fun e => (e.1, canon e.2)) := by
  intro cs
  induction cs with
  | nil => rfl
  | cons e rest ih => obtain ⟨n, t⟩ := e; simp [canonChildren, ih]

theorem nodupNames_iff : ∀ l : List String, nodupNames l = true ↔ l.Nodup := by
  intro l
  induction l with
  | nil => simp [nodupNames]
  | cons n rest ih =>
    simp [nodupNames, ih, List.elem_iff]

theorem validChildren_iff : ∀ cs : List (String × FSTree),
    validChildren cs = true ↔ ∀ e ∈ cs, validTree e.2 = true := by
  intro cs
  induction cs with
  | nil => simp [validChildren]
  | cons e rest ih =>
    obtain ⟨n, t⟩ := e
    simp [validChildren, ih]

theorem childFiles_mapChildren (f : List Nat × Nat × Nat → List Nat × Nat × Nat) :
    ∀ cs : List (String × FSTree),
    childFiles (cs.map (fun e => (e.1, mapContents f e.2))) =
      (childFiles cs).map (fun e => (e.1, f e.2)) := by
  intro cs
  induction cs with
  | nil => rfl
  | cons e rest ih =>
    obtain ⟨n, t⟩ := e
    cases t with
    | file c m md =>
      simp only [List.map_cons, mapContents, childFiles_cons_file, ih]
    | dir cs' =>
      simp only [List.map_cons, mapContents, childFiles_cons_dir, ih]

theorem childDirs_mapChildren (f : List Nat × Nat × Nat → List Nat × Nat × Nat) :
    ∀ cs : List (String × FSTree),
    childDirs (cs.map (fun e => (e.1, mapContents f e.2))) =
      (childDirs cs).map (fun e => (e.1, mapContents f e.2)) := by
  intro cs
  induction cs with
  | nil => rfl
  | cons e rest ih =>
    obtain ⟨n, t⟩ := e
    cases t with
    | file c m md =>
      simp only [List.map_cons, mapContents, childDirs_cons_file, ih]
    | dir cs' =>
      simp only [List.map_cons, mapContents, childDirs_cons_dir, List.map_cons, ih]

theorem childFiles_canonMap : ∀ cs : List (String × FSTree),
    childFiles (cs.map (fun e => (e.1, canon e.2))) = childFiles cs := by
  intro cs
  induction cs with
  | nil => rfl
  | cons e rest ih =>
    obtain ⟨n, t⟩ := e
    cases t with
    | file c m md => simp only [List.map_cons, canon, childFiles_cons_file, ih]
    | dir cs' => simp only [List.map_cons, canon, childFiles_cons_dir, ih]

theorem childDirs_canonMap : ∀ cs : List (String × FSTree),
    childDirs (cs.map (fun e => (e.1, canon e.2))) =
      (childDirs cs).map (fun e => (e.1, canon e.2)) := by
  intro cs
  induction cs with
  | nil => rfl
  | cons e rest ih =>
    obtain ⟨n, t⟩ := e
    cases t with
    | file c m md => simp only [List.map_cons, canon, childDirs_cons_file, ih]
    | dir cs' => simp only [List.map_cons, canon, childDirs_cons_dir, List.map_cons, ih]

/-- Transforming file payloads commutes with the walk: the walk visits the
same paths in the same order and only the `(content, mtime)` payload changes.
This isolates which parts of the tree the Archive Writer's output can depend
on. -/
theorem walk_mapContents (f : List Nat × Nat × Nat → List Nat × Nat × Nat) : ∀ t : FSTree,
    walkCollect (mapContents f t) = (walkCollect t).map (fun r => (r.1, f r.2)) := by
  intro t
  induction t using FSTree.inductionOn with
  | hfile c m md => rfl
  | hdir cs ih =>
    have hfiles : sortPairs (childFiles (mapChildren f cs)) =
        (sortPairs (childFiles cs)).map (fun e => (e.1, f e.2)) := by
      rw [mapChildren_eq, childFiles_mapChildren,
        sortPairs_map (fun e => (e.1, f e.2)) (fun e => rfl)]
    have hsub : walkSub (mapChildren f cs) =
        (walkSub cs).map (fun e => (e.1, e.2.map (fun r => (r.1, f r.2)))) := by
      rw [walkSub_eq, walkSub_eq, mapChildren_eq, childDirs_mapChildren,
        List.filter_map, List.map_map, List.map_map]
      apply List.map_congr_left
      intro e he
      have hecs : e ∈ cs :=
        mem_of_mem_childDirs (List.mem_of_mem_filter he)
      simp only [Function.comp_apply]
      rw [ih e hecs]
    show walkCollect (FSTree.dir (mapChildren f cs)) = _
    simp only [walkCollect, hfiles, hsub, List.map_append, List.map_map]
    congr 1
    rw [← sortPairs_map
      (fun e : String × List (List String × List Nat × Nat × Nat) =>
        (e.1, e.2.map (fun r => (r.1, f r.2))))
      (fun e => rfl), List.flatMap_map, List.map_flatMap]
    congr 1
    funext e
    simp [List.map_map, Function.comp]

theorem valid_dir_parts {cs : List (String × FSTree)}
    (hv : validTree (FSTree.dir cs) = true) :
    (namesOf cs).Nodup ∧ ∀ e ∈ cs, validTree e.2 = true := by
  simp only [validTree, Bool.and_eq_true] at hv
  exact ⟨(nodupNames_iff _).mp hv.1, (validChildren_iff _).mp hv.2⟩

/-- On a real tree (no duplicate names in any directory), the walk does not
depend on the order in which the filesystem lists directory entries:
canonicalizing the listing order leaves the walk unchanged. -/
theorem walk_canon : ∀ t : FSTree, validTree t = true →
    walkCollect (canon t) = walkCollect t := by
  intro t
  induction t using FSTree.inductionOn with
  | hfile c m md => intro _; rfl
  | hdir cs ih =>
    intro hv
    obtain ⟨hnd, hvc⟩ := valid_dir_parts hv
    have hperm : (sortPairs (canonChildren cs)).Perm
        (cs.map (fun e => (e.1, canon e.2))) := by
      rw [canonChildren_eq]
      exact sortPairs_perm _
    -- the files of the canonicalized listing are a permutation of the original
    have hfp : (childFiles (sortPairs (canonChildren cs))).Perm (childFiles cs) := by
      have := childFiles_perm hperm
      rwa [childFiles_canonMap] at this
    have hfkeys : ((childFiles (sortPairs (canonChildren cs))).map Prod.fst).Nodup := by
      have hsub : ((childFiles cs).map Prod.fst).Nodup :=
        (childFiles_fst_sublist cs).nodup hnd
      exact ((hfp.map Prod.fst).nodup_iff).mpr hsub
    have hfiles : sortPairs (childFiles (sortPairs (canonChildren cs))) =
        sortPairs (childFiles cs) :=
      sortPairs_eq_of_perm hfp hfkeys
    -- the recursive walks of the canonicalized subdirectories are a
    -- permutation of the original ones
    have hdp : (walkSub (sortPairs (canonChildren cs))).Perm (walkSub cs) := by
      rw [walkSub_eq, walkSub_eq]
      have h1 : (childDirs (sortPairs (canonChildren cs))).Perm
          ((childDirs cs).map (fun e => (e.1, canon e.2))) := by
        have := childDirs_perm hperm
        rwa [childDirs_canonMap] at this
      have h2 : ((childDirs cs).map (fun e => (e.1, canon e.2))).filter
            (fun e => !(e.1 == "cmd")) =
          ((childDirs cs).filter (fun e => !(e.1 == "cmd"))).map
            (fun e => (e.1, canon e.2)) := by
        rw [List.filter_map]; rfl
      have h3 : (((childDirs cs).filter (fun e => !(e.1 == "cmd"))).map
            (fun e => (e.1, canon e.2))).map (fun e => (e.1, walkCollect e.2)) =
          ((childDirs cs).filter (fun e => !(e.1 == "cmd"))).map
            (fun e => (e.1, walkCollect e.2)) := by
        rw [List.map_map]
        apply List.map_congr_left
        intro e he
        have hecs : e ∈ cs := mem_of_mem_childDirs (List.mem_of_mem_filter he)
        simp only [Function.comp_apply]
        rw [ih e hecs (hvc e hecs)]
      have h4 : (((childDirs (sortPairs (canonChildren cs))).filter
            (fun e => !(e.1 == "cmd"))).map (fun e => (e.1, walkCollect e.2))).Perm
          ((((childDirs cs).map (fun e => (e.1, canon e.2))).filter
            (fun e => !(e.1 == "cmd"))).map (fun e => (e.1, walkCollect e.2))) :=
        (h1.filter _).map _
      rw [h2, h3] at h4
      exact h4
    have hdkeys : ((walkSub (sortPairs (canonChildren cs))).map Prod.fst).Nodup := by
      have hws : ((walkSub cs).map Prod.fst).Nodup := by
        rw [walkSub_eq, List.map_map]
        have : (((childDirs cs).filter (fun e => !(e.1 == "cmd"))).map
            Prod.fst).Sublist (namesOf cs) :=
          ((List.filter_sublist (childDirs cs)).map Prod.fst).trans
            (childDirs_fst_sublist cs)
        exact this.nodup hnd
      exact ((hdp.map Prod.fst).nodup_iff).mpr hws
    have hdirs : sortPairs (walkSub (sortPairs (canonChildren cs))) =
        sortPairs (walkSub cs) :=
      sortPairs_eq_of_perm hdp hdkeys
    show walkCollect (FSTree.dir (sortPairs (canonChildren cs))) = _
    simp only [walkCollect, hfiles, hdirs]

theorem namesOf_map (g : FSTree → FSTree) (cs : List (String × FSTree)) :
    namesOf (cs.map (fun e => (e.1, g e.2))) = namesOf cs := by
  simp only [namesOf, List.map_map]
  rfl

theorem validChildren_congr (g : FSTree → FSTree) :
    ∀ cs : List (String × FSTree), (∀ e ∈ cs, validTree (g e.2) = validTree e.2) →
    validChildren (cs.map (fun e => (e.1, g e.2))) = validChildren cs := by
  intro cs
  induction cs with
  | nil => intro _; rfl
  | cons e rest ih =>
    intro h
    obtain ⟨n, t⟩ := e
    simp only [List.map_cons, validChildren]
    rw [h (n, t) (List.mem_cons_self _ _), ih (fun e he => h e (List.mem_cons_of_mem _ he))]

/-- Transforming file payloads does not change whether a tree is a valid
on-disk tree (names are untouched). -/
theorem valid_mapContents (f : List Nat × Nat × Nat → List Nat × Nat × Nat) : ∀ t : FSTree,
    validTree (mapContents f t) = validTree t := by
  intro t
  induction t using FSTree.inductionOn with
  | hfile c m md => rfl
  | hdir cs ih =>
    show validTree (FSTree.dir (mapChildren f cs)) = _
    rw [mapChildren_eq]
    simp only [validTree]
    rw [namesOf_map, validChildren_congr _ cs ih]

theorem zipEntries_eq_of_walkPC {cS : Nat}
    {lt1 lt2 : Nat → Nat × Nat × Nat × Nat × Nat × Nat}
    {t1 t2 : FSTree} (h : walkPC t1 = walkPC t2) :
    zipEntries cS lt1 t1 = zipEntries cS lt2 t2 := by
  have key : ∀ (lt : Nat → Nat × Nat × Nat × Nat × Nat × Nat) (t : FSTree),
      zipEntries cS lt t = (walkPC t).map (fun pr =>
        { arcname := String.intercalate "/" pr.1
          date_time := (1980, 1, 1, 0, 0, 0)
          compress_type := ZIP_STORED
          external_attr := zipExternalAttr pr.2.2
          create_system := cS
          data := pr.2.1 : ZipEntry }) := by
    intro lt t
    simp only [zipEntries, walkPC, List.map_map]
    rfl
  rw [key, key, h]

theorem walkPC_clearMtimes (t : FSTree) : walkPC (clearMtimes t) = walkPC t := by
  simp only [walkPC, clearMtimes, walk_mapContents, List.map_map]
  rfl

/-- Determinism backbone: on a fixed host OS, the archive entries depend only
on the canonicalized content-and-mode view of the staging tree — not on
listing order, not on mtimes, not on the host's localtime conversion. -/
theorem zipEntries_canon_clearMtimes {cS : Nat}
    {lt1 lt2 : Nat → Nat × Nat × Nat × Nat × Nat × Nat}
    {t1 t2 : FSTree} (h1 : validTree t1 = true) (h2 : validTree t2 = true)
    (hset : canon (clearMtimes t1) = canon (clearMtimes t2)) :
    zipEntries cS lt1 t1 = zipEntries cS lt2 t2 := by
  apply zipEntries_eq_of_walkPC
  have k1 : walkPC t1 = walkPC (canon (clearMtimes t1)) := by
    rw [← walkPC_clearMtimes t1]
    unfold walkPC
    rw [walk_canon (clearMtimes t1) (by rw [clearMtimes, valid_mapContents]; exact h1)]
  have k2 : walkPC t2 = walkPC (canon (clearMtimes t2)) := by
    rw [← walkPC_clearMtimes t2]
    unfold walkPC
    rw [walk_canon (clearMtimes t2) (by rw [clearMtimes, valid_mapContents]; exact h2)]
  rw [k1, k2, hset]

/-- A name ignored by a filter-shaped callback is exactly a listed name
satisfying the predicate. -/
theorem mem_filter_callback {p : String → Bool} {names : List String} {n : String}
    (hmem : n ∈ names) (hp : p n = true) : n ∈ names.filter p :=
  List.mem_filter.mpr ⟨hmem, hp⟩

/-- Copying with a filter-shaped ignore callback removes every `p`-name at
every depth: the staged copy passes the `checkNames p` scan. -/
theorem checkNames_copytree (p : String → Bool) : ∀ (t : FSTree) (path : String),
    checkNames p (copytree (fun _ files => files.filter p) path t) = true := by
  intro t
  induction t using FSTree.inductionOn with
  | hfile c m md => intro path; rfl
  | hdir cs ih =>
    intro path
    show checkChildren p (copyChildren _ path ((namesOf cs).filter p) cs) = true
    have main : ∀ ds : List (String × FSTree), (∀ e ∈ ds, ∀ q, checkNames p
          (copytree (fun _ files => files.filter p) q e.2) = true) →
        (∀ e ∈ ds, e.1 ∈ namesOf cs) →
        checkChildren p (copyChildren (fun _ files => files.filter p) path
          ((namesOf cs).filter p) ds) = true := by
      intro ds
      induction ds with
      | nil => intro _ _; rfl
      | cons e rest ihr =>
        intro hall hnames
        obtain ⟨n, t'⟩ := e
        simp only [copyChildren]
        by_cases hc : ((namesOf cs).filter p).contains n
        · simp only [hc, if_true]
          exact ihr (fun e he => hall e (List.mem_cons_of_mem _ he))
              (fun e he => hnames e (List.mem_cons_of_mem _ he))
        · simp only [hc, if_false, checkChildren, Bool.and_eq_true]
          have hpn : p n = false := by
            by_contra hpn
            have : p n = true := by
              cases h : p n
              · exact absurd h hpn
              · rfl
            have : n ∈ (namesOf cs).filter p :=
              mem_filter_callback (hnames (n, t') (List.mem_cons_self _ _)) this
            rw [List.elem_iff] at hc
            exact hc this
          refine ⟨⟨?_, ?_⟩, ?_⟩
          · rw [hpn]; rfl
          · exact hall (n, t') (List.mem_cons_self _ _) _
          · exact ihr (fun e he => hall e (List.mem_cons_of_mem _ he))
              (fun e he => hnames e (List.mem_cons_of_mem _ he))
    exact main cs (fun e he q => ih e he q) (fun e he => List.mem_map_of_mem Prod.fst he)

/-- A regular file at the top of the staging tree yields an archive entry
whose name is exactly its own name. -/
theorem top_file_mem_zipEntries (cS : Nat) (lt : Nat → Nat × Nat × Nat × Nat × Nat × Nat)
    {cs : List (String × FSTree)} {n : String} {c : List Nat} {m md : Nat}
    (h : (n, FSTree.file c m md) ∈ cs) :
    ∃ e ∈ zipEntries cS lt (FSTree.dir cs), e.arcname = n ∧ e.data = c := by
  have h1 : (n, c, m, md) ∈ childFiles cs :=
    List.mem_filterMap.mpr ⟨(n, FSTree.file c m md), h, rfl⟩
  have h2 : (n, c, m, md) ∈ sortPairs (childFiles cs) :=
    (sortPairs_perm _).mem_iff.mpr h1
  have h3 : (([n], c, m, md) : List String × List Nat × Nat × Nat) ∈
      walkCollect (FSTree.dir cs) := by
    show _ ∈ (sortPairs (childFiles cs)).map (fun e => ([e.1], e.2)) ++ _
    exact List.mem_append_left _ (List.mem_map_of_mem _ h2)
  exact ⟨zipEntryOf cS lt ([n], c, m, md), List.mem_map_of_mem _ h3, rfl, rfl⟩

/-- Inversion of a successful run: success requires `go.mod` and `go.sum` to
be regular files of the source root, and the archive is the zip of a staging
tree that carries them at top level. -/
theorem create_ok_inv {fname : String} {src : FSTree} {tempPre : Option FSTree}
    {zw : Bool} {cS : Nat} {lt : Nat → Nat × Nat × Nat × Nat × Nat × Nat}
    {entries : List ZipEntry}
    (h : (create_function_zip fname src tempPre zw cS lt).result = Except.ok entries) :
    ∃ staged gmc gmm gmo gsc gsm gso,
      entries = zipEntries cS lt (FSTree.dir (staged ++
        [("go.mod", FSTree.file gmc gmm gmo), ("go.sum", FSTree.file gsc gsm gso)])) ∧
      findAt src ["go.mod"] = some (FSTree.file gmc gmm gmo) ∧
      findAt src ["go.sum"] = some (FSTree.file gsc gsm gso) := by
  unfold create_function_zip at h
  repeat' split at h
  all_goals first
    | (simp only [Except.ok.injEq] at h
       exact ⟨_, _, _, _, _, _, _, h.symm, by assumption, by assumption⟩)
    | simp at h

/-- Packaging cannot succeed when a manifest file is missing from the source
root: `shutil.copy2` raises `FileNotFoundError` before the archive is
written. -/
theorem create_noManifest {fname : String} {src : FSTree} {tempPre : Option FSTree}
    {zw : Bool} {cS : Nat} {lt : Nat → Nat × Nat × Nat × Nat × Nat × Nat}
    (h : findAt src ["go.mod"] = none ∨ findAt src ["go.sum"] = none) :
    resultOk (create_function_zip fname src tempPre zw cS lt) = false := by
  cases hres : (create_function_zip fname src tempPre zw cS lt).result with
  | error e => simp [resultOk, hres]
  | ok entries =>
    obtain ⟨_, _, _, _, _, _, _, _, hm, hs⟩ := create_ok_inv hres
    rcases h with h | h
    · rw [h] at hm; exact absurd hm (by simp)
    · rw [h] at hs; exact absurd hs (by simp)

/-- The staging directory survives the call exactly when the call fails: the
final `shutil.rmtree(temp_dir)` is on the success path only, with no
`try`/`finally` around the archive-writing block. -/
theorem tempPersists_iff_not_ok (fname : String) (src : FSTree)
    (tempPre : Option FSTree) (zw : Bool) (cS : Nat)
    (lt : Nat → Nat × Nat × Nat × Nat × Nat × Nat) :
    (create_function_zip fname src tempPre zw cS lt).tempPersists =
      !(resultOk (create_function_zip fname src tempPre zw cS lt)) := by
  cases tempPre <;>
    (unfold create_function_zip resultOk
     simp only [rmtreeIfExists, mkdirFresh]
     repeat' split
     all_goals first | rfl | simp_all)

/-- Whatever is on disk at the staging path when packaging starts, lines 16-18
remove it and recreate it fresh, so the outcome never depends on it. -/
theorem create_ignores_tempPre (fname : String) (src : FSTree) (tp : Option FSTree)
    (zw : Bool) (cS : Nat) (lt : Nat → Nat × Nat × Nat × Nat × Nat × Nat) :
    create_function_zip fname src tp zw cS lt =
      create_function_zip fname src none zw cS lt := by
  cases tp <;> rfl

theorem walkPaths_shapeOf (t : FSTree) : walkPaths (shapeOf t) = walkPaths t := by
  simp only [walkPaths, shapeOf, walk_mapContents, List.map_map]
  rfl

/-- The enumeration's path sequence is a total function of the path-string
structure of the tree: trees of the same shape (any contents, any mtimes, any
listing order) are walked along the same path sequence. -/
theorem walkPaths_eq_of_shape {t1 t2 : FSTree} (h1 : validTree t1 = true)
    (h2 : validTree t2 = true) (hshape : canon (shapeOf t1) = canon (shapeOf t2)) :
    walkPaths t1 = walkPaths t2 := by
  rw [← walkPaths_shapeOf t1, ← walkPaths_shapeOf t2]
  unfold walkPaths
  rw [← walk_canon (shapeOf t1) (by rw [shapeOf, valid_mapContents]; exact h1),
    ← walk_canon (shapeOf t2) (by rw [shapeOf, valid_mapContents]; exact h2), hshape]

/-! ### The claims -/

/-- C1 counterexample.  Identical file sets and identical per-file byte
contents (equality after `canon ∘ clearStat`, which erases listing order,
mtimes and modes — exactly what the claim conditions on) do not make the
archives byte-identical: `ZipInfo.from_file` packs the staged file's
permission bits into `external_attr` (`tAttrA` holds `a.go` with mode
`0o644`, `tAttrB` the same path and bytes with mode `0o755`, and their
entries differ), and `ZipInfo.__init__` sets `create_system` from the host
OS (0 on Windows, 3 elsewhere — the same tree zipped under the two values
yields different entries), so the bytes differ across permission bits and
across host OSes, against the claim's "regardless of host OS". -/
theorem C1_mode_and_host_counterexample :
    canon (clearStat tAttrA) = canon (clearStat tAttrB) ∧
    validTree tAttrA = true ∧ validTree tAttrB = true ∧
    zipEntries 3 ltA tAttrA ≠ zipEntries 3 ltA tAttrB ∧
    zipEntries 0 ltA tAttrA ≠ zipEntries 3 ltA tAttrA :=
  ⟨rfl, rfl, rfl, by decide, by decide⟩

/-- C1 (amended).  On one host OS (a fixed `ZipInfo` `create_system` value),
two invocations of the archive-writing phase against staging trees with
identical file sets, identical per-file byte contents and identical per-file
permission modes — equality after erasing listing order (`canon`) and mtimes
(`clearMtimes`), which keeps modes — produce identical archives, whatever
each invocation's `time.localtime` conversion is (`lt1`, `lt2` quantify over
wall clock and timezone) and however the filesystem orders its listings.  In
particular, packaging the same unit twice on one machine with unchanged
sources yields identical archives.  The archive is modelled as its entry
sequence: names, timestamp metadata, compression method, `external_attr`,
`create_system` and contents in write order. -/
theorem C1_archive_determinism_amended (cS : Nat)
    (lt1 lt2 : Nat → Nat × Nat × Nat × Nat × Nat × Nat)
    (t1 t2 : FSTree) (h1 : validTree t1 = true) (h2 : validTree t2 = true)
    (hset : canon (clearMtimes t1) = canon (clearMtimes t2)) :
    zipEntries cS lt1 t1 = zipEntries cS lt2 t2 :=
  zipEntries_canon_clearMtimes h1 h2 hset

theorem C1_archive_determinism_amended_witness :
    validTree tWitA = true ∧ validTree tWitB = true ∧
    canon (clearMtimes tWitA) = canon (clearMtimes tWitB) ∧
    zipEntries 3 ltA tWitA = zipEntries 3 ltB tWitB :=
  ⟨rfl, rfl, rfl, C1_archive_determinism_amended 3 ltA ltB tWitA tWitB rfl rfl rfl⟩

/-- C2.  The Archive Writer enumerates staged files canonically: the
enumerated path sequence is a total function of the tree's path-string
structure (`shapeOf` erases contents and mtimes; `canon` erases listing
order), so it never depends on filesystem-reported listing order; at each
directory level the file block and the subdirectory block are each sorted by
name (Python's `sorted(files)` and `dirs.sort()`); and the archive's entries
are exactly the enumeration mapped to entries, in enumeration order. -/
theorem C2_canonical_enumeration (t1 t2 : FSTree) (h1 : validTree t1 = true)
    (h2 : validTree t2 = true) (hshape : canon (shapeOf t1) = canon (shapeOf t2)) :
    walkPaths t1 = walkPaths t2 ∧
    (∀ (cS : Nat) (lt : Nat → Nat × Nat × Nat × Nat × Nat × Nat) (t : FSTree),
      zipEntries cS lt t = (walkCollect t).map (zipEntryOf cS lt)) ∧
    (∀ cs : List (String × FSTree),
      List.Sorted pairLe (sortPairs (childFiles cs)) ∧
      List.Sorted pairLe (sortPairs (walkSub cs)) ∧
      walkCollect (FSTree.dir cs) =
        (sortPairs (childFiles cs)).map (fun e => ([e.1], e.2)) ++
          (sortPairs (walkSub cs)).flatMap (fun e => e.2.map fun r => (e.1 :: r.1, r.2))) :=
  ⟨walkPaths_eq_of_shape h1 h2 hshape,
   fun _ _ _ => rfl,
   fun _ => ⟨sortPairs_sorted _, sortPairs_sorted _, rfl⟩⟩

theorem C2_canonical_enumeration_witness :
    validTree tWitA = true ∧ validTree tWitC = true ∧
    canon (shapeOf tWitA) = canon (shapeOf tWitC) ∧
    walkPaths tWitA = walkPaths tWitC :=
  ⟨rfl, rfl, rfl, (C2_canonical_enumeration tWitA tWitC rfl rfl rfl).1⟩

/-- C3 (code bug).  Every entry written to the archive has its timestamp
metadata overridden to the fixed `(1980, 1, 1, 0, 0, 0)`, as claimed — but the
compression method is `ZIP_STORED`, not `ZIP_DEFLATED`: `writestr` takes the
method from the `ZipInfo` it is given, `ZipInfo.from_file` leaves
`compress_type` at the `ZipInfo.__init__` default `ZIP_STORED`, and the
`ZIP_DEFLATED` argument passed to the `ZipFile` constructor only applies to
entries written without an explicit `ZipInfo`.  The first conjunct checks
every entry of every archive; the second evaluates a one-file staging tree;
the third records that the two methods differ. -/
theorem C3_timestamp_fixed_but_stored :
    (∀ (cS : Nat) (lt : Nat → Nat × Nat × Nat × Nat × Nat × Nat) (t : FSTree),
      (zipEntries cS lt t).all
        (fun e => decide (e.date_time = (1980, 1, 1, 0, 0, 0)) &&
          (e.compress_type == ZIP_STORED)) = true) ∧
    zipEntries 3 ltA (FSTree.dir [("a.go", FSTree.file [7] 3 420)]) =
      [{ arcname := "a.go", date_time := (1980, 1, 1, 0, 0, 0),
         compress_type := ZIP_STORED, external_attr := zipExternalAttr 420,
         create_system := 3, data := [7] }] ∧
    ZIP_STORED ≠ ZIP_DEFLATED := by
  refine ⟨?_, rfl, by decide⟩
  intro cS lt t
  rw [List.all_eq_true]
  intro e he
  obtain ⟨r, _, rfl⟩ := List.mem_map.mp he
  rfl

/-- C4.  `ignore_patterns`, applied to any directory and its entry names,
returns exactly the names that end in `_test.go`, or equal `main.go`, or
equal `cmd`, and no others; every other name is included.  (The model is a
pure function, as the source callback is: it only reads its arguments.) -/
theorem C4_ignore_patterns_exact (d : String) (files : List String) (f : String) :
    f ∈ ignore_patterns d files ↔
      f ∈ files ∧ (strEnds f "_test.go" = true ∨ f = "main.go" ∨ f = "cmd") := by
  unfold ignore_patterns privateExcluded
  rw [List.mem_filter]
  simp [Bool.or_eq_true, or_assoc]

/-- C5 counterexample.  The claim says the populated staging tree never
contains `main.go` at any depth, "including entries at any depth below a
shared source root".  With a shared `pkg` root containing `main.go`, the
shared copy (which excludes only `*_test.go`) stages it, and the produced
archive carries the entry `pkg/main.go`; the staged shared subtree fails the
private-exclusion scan. -/
theorem C5_shared_root_counterexample :
    (create_function_zip "u" srcSharedMain none true 3 ltA).result =
      Except.ok [
        { arcname := "go.mod", date_time := (1980, 1, 1, 0, 0, 0),
          compress_type := ZIP_STORED, external_attr := zipExternalAttr 420,
          create_system := 3, data := [1] },
        { arcname := "go.sum", date_time := (1980, 1, 1, 0, 0, 0),
          compress_type := ZIP_STORED, external_attr := zipExternalAttr 420,
          create_system := 3, data := [2] },
        { arcname := "pkg/lib.go", date_time := (1980, 1, 1, 0, 0, 0),
          compress_type := ZIP_STORED, external_attr := zipExternalAttr 420,
          create_system := 3, data := [51] },
        { arcname := "pkg/main.go", date_time := (1980, 1, 1, 0, 0, 0),
          compress_type := ZIP_STORED, external_attr := zipExternalAttr 420,
          create_system := 3, data := [50] },
        { arcname := "u/a.go", date_time := (1980, 1, 1, 0, 0, 0),
          compress_type := ZIP_STORED, external_attr := zipExternalAttr 420,
          create_system := 3, data := [97] }] ∧
    checkNames privateExcluded (copytree sharedIgnoreCallback ""
      (FSTree.dir [("lib.go", FSTree.file [51] 10 420),
        ("main.go", FSTree.file [50] 9 420)])) =
      false :=
  ⟨rfl, rfl⟩

/-- C5 (amended).  The Tree Merger's copies are exactly as strict as their
callbacks: the private-root copy (`ignore_patterns`) stages no `_test.go`
file, no `main.go` and no `cmd` entry at any depth, while the shared-root
copy (`shutil.ignore_patterns('*_test.go')`) excludes only `_test.go` names
at any depth — a `main.go` or `cmd` directory below the shared root is
staged and shipped. -/
theorem C5_staged_filter_amended :
    (∀ (path : String) (t : FSTree),
      checkNames privateExcluded (copytree ignore_patterns path t) = true) ∧
    (∀ (path : String) (t : FSTree),
      checkNames (fun f => strEnds f "_test.go")
        (copytree sharedIgnoreCallback path t) = true) :=
  ⟨fun path t => checkNames_copytree privateExcluded t path,
   fun path t => checkNames_copytree (fun f => strEnds f "_test.go") t path⟩

/-- C6 counterexample.  With a stale staging directory on disk when packaging
starts, `create_function_zip` does not fail with `DestinationExists`: lines
16-17 delete the stale directory and packaging proceeds to a successful
archive. -/
theorem C6_stale_staging_counterexample :
    (create_function_zip "u" srcExample
        (some (FSTree.dir [("junk.go", FSTree.file [0] 0 420)])) true 3 ltA).result =
      Except.ok [
        { arcname := "go.mod", date_time := (1980, 1, 1, 0, 0, 0),
          compress_type := ZIP_STORED, external_attr := zipExternalAttr 420,
          create_system := 3, data := [1] },
        { arcname := "go.sum", date_time := (1980, 1, 1, 0, 0, 0),
          compress_type := ZIP_STORED, external_attr := zipExternalAttr 420,
          create_system := 3, data := [2] },
        { arcname := "u/a.go", date_time := (1980, 1, 1, 0, 0, 0),
          compress_type := ZIP_STORED, external_attr := zipExternalAttr 420,
          create_system := 3, data := [97] }] :=
  rfl

/-- C6 (amended).  The function itself ensures the clean slate: whatever is at
the staging path when the call starts is removed before `mkdir`, so the
outcome never depends on it; the `mkdir(parents=True)` step (with `exist_ok`
left `False`) is what would fail with `FileExistsError` (`DestinationExists`)
if the directory still existed when it runs. -/
theorem C6_stale_staging_amended (fname : String) (src : FSTree) (tp : Option FSTree)
    (zw : Bool) (cS : Nat) (lt : Nat → Nat × Nat × Nat × Nat × Nat × Nat) (t : FSTree) :
    create_function_zip fname src tp zw cS lt =
      create_function_zip fname src none zw cS lt ∧
    mkdirFresh (some t) = Except.error PkgError.DestinationExists :=
  ⟨create_ignores_tempPre fname src tp zw cS lt, rfl⟩

/-- C7 counterexample.  When the Archive Writer fails (the output path cannot
be created or written), the staging tree persists after `create_function_zip`
terminates: there is no `try`/`finally`, so the `shutil.rmtree(temp_dir)` at
line 66 is skipped when the exception propagates. -/
theorem C7_cleanup_counterexample :
    (create_function_zip "u" srcExample none false 3 ltA).result =
      Except.error PkgError.WriteFailed ∧
    (create_function_zip "u" srcExample none false 3 ltA).tempPersists = true :=
  ⟨rfl, rfl⟩

/-- C7 (amended).  The staging directory is removed exactly on the success
path: after `create_function_zip` terminates, the staging tree persists if
and only if the call failed (any failure after the staging directory is
created — missing source, missing manifest, unwritable output — leaves it on
disk; the next run of the same unit removes it at lines 16-17). -/
theorem C7_cleanup_amended (fname : String) (src : FSTree) (tp : Option FSTree)
    (zw : Bool) (cS : Nat) (lt : Nat → Nat × Nat × Nat × Nat × Nat × Nat) :
    (create_function_zip fname src tp zw cS lt).tempPersists =
      !(resultOk (create_function_zip fname src tp zw cS lt)) :=
  tempPersists_iff_not_ok fname src tp zw cS lt

/-- C8 counterexample.  On the spec's concrete scenario (private root with
exactly `a.go`, `a_test.go`, `main.go`, `cmd/tool.go`; no shared root) the
archive does not contain exactly one entry: the unconditional manifest copies
put `go.mod` and `go.sum` in as well, so it has three. -/
theorem C8_three_entries_counterexample :
    (create_function_zip "u" srcExample none true 3 ltA).result =
      Except.ok [
        { arcname := "go.mod", date_time := (1980, 1, 1, 0, 0, 0),
          compress_type := ZIP_STORED, external_attr := zipExternalAttr 420,
          create_system := 3, data := [1] },
        { arcname := "go.sum", date_time := (1980, 1, 1, 0, 0, 0),
          compress_type := ZIP_STORED, external_attr := zipExternalAttr 420,
          create_system := 3, data := [2] },
        { arcname := "u/a.go", date_time := (1980, 1, 1, 0, 0, 0),
          compress_type := ZIP_STORED, external_attr := zipExternalAttr 420,
          create_system := 3, data := [97] }] ∧
    ([{ arcname := "go.mod", date_time := (1980, 1, 1, 0, 0, 0),
        compress_type := ZIP_STORED, external_attr := zipExternalAttr 420,
        create_system := 3, data := [1] },
      { arcname := "go.sum", date_time := (1980, 1, 1, 0, 0, 0),
        compress_type := ZIP_STORED, external_attr := zipExternalAttr 420,
        create_system := 3, data := [2] },
      { arcname := "u/a.go", date_time := (1980, 1, 1, 0, 0, 0),
        compress_type := ZIP_STORED, external_attr := zipExternalAttr 420,
        create_system := 3, data := [97] }] : List ZipEntry).length = 3 :=
  ⟨rfl, rfl⟩

/-- C8 (amended).  Given a private source root containing exactly `a.go`,
`a_test.go`, `main.go` and `cmd/tool.go`, no shared root, and the mandatory
`go.mod`/`go.sum` in the source root, the archive contains exactly three
entries, in this order: `go.mod`, `go.sum` and `u/a.go` — the test file, the
entry point and the `cmd` directory are excluded, whatever the file
contents, mtimes and modes, the stale staging state, the host OS and the
host clock. -/
theorem C8_concrete_scenario_amended (ca cat cm ct g1 g2 : List Nat)
    (m1 m2 m3 m4 m5 m6 mo1 mo2 mo3 mo4 mo5 mo6 : Nat) (tp : Option FSTree)
    (cS : Nat) (lt : Nat → Nat × Nat × Nat × Nat × Nat × Nat) :
    (create_function_zip "u" (FSTree.dir [
        ("functions", FSTree.dir [("u", FSTree.dir [
          ("a.go", FSTree.file ca m1 mo1),
          ("a_test.go", FSTree.file cat m2 mo2),
          ("main.go", FSTree.file cm m3 mo3),
          ("cmd", FSTree.dir [("tool.go", FSTree.file ct m4 mo4)])])]),
        ("go.mod", FSTree.file g1 m5 mo5),
        ("go.sum", FSTree.file g2 m6 mo6)]) tp true cS lt).result =
      Except.ok [
        { arcname := "go.mod", date_time := (1980, 1, 1, 0, 0, 0),
          compress_type := ZIP_STORED, external_attr := zipExternalAttr mo5,
          create_system := cS, data := g1 },
        { arcname := "go.sum", date_time := (1980, 1, 1, 0, 0, 0),
          compress_type := ZIP_STORED, external_attr := zipExternalAttr mo6,
          create_system := cS, data := g2 },
        { arcname := "u/a.go", date_time := (1980, 1, 1, 0, 0, 0),
          compress_type := ZIP_STORED, external_attr := zipExternalAttr mo1,
          create_system := cS, data := ca }] := by
  cases tp <;> rfl

/-- C9.  `create_function_zip` copies `go.mod` and `go.sum` unconditionally:
every successfully produced archive contains top-level entries `go.mod` and
`go.sum`, and packaging fails whenever either file is missing from the source
root — the manifests are mandatory inputs. -/
theorem C9_manifests_mandatory (fname : String) (src : FSTree) (tp : Option FSTree)
    (zw : Bool) (cS : Nat) (lt : Nat → Nat × Nat × Nat × Nat × Nat × Nat) :
    (∀ entries, (create_function_zip fname src tp zw cS lt).result = Except.ok entries →
      (∃ e ∈ entries, e.arcname = "go.mod") ∧ (∃ e ∈ entries, e.arcname = "go.sum")) ∧
    (findAt src ["go.mod"] = none ∨ findAt src ["go.sum"] = none →
      resultOk (create_function_zip fname src tp zw cS lt) = false) := by
  constructor
  · intro entries h
    obtain ⟨staged, gmc, gmm, gmo, gsc, gsm, gso, hentries, _, _⟩ := create_ok_inv h
    subst hentries
    constructor
    · obtain ⟨e, hmem, harc, _⟩ := top_file_mem_zipEntries cS lt
        (show ("go.mod", FSTree.file gmc gmm gmo) ∈ staged ++
          [("go.mod", FSTree.file gmc gmm gmo), ("go.sum", FSTree.file gsc gsm gso)] from
          List.mem_append_right _ (by simp))
      exact ⟨e, hmem, harc⟩
    · obtain ⟨e, hmem, harc, _⟩ := top_file_mem_zipEntries cS lt
        (show ("go.sum", FSTree.file gsc gsm gso) ∈ staged ++
          [("go.mod", FSTree.file gmc gmm gmo), ("go.sum", FSTree.file gsc gsm gso)] from
          List.mem_append_right _ (by simp))
      exact ⟨e, hmem, harc⟩
  · exact create_noManifest

theorem C9_manifests_mandatory_witness :
    ((∃ e ∈ ([
        { arcname := "go.mod", date_time := (1980, 1, 1, 0, 0, 0),
          compress_type := ZIP_STORED, external_attr := zipExternalAttr 420,
          create_system := 3, data := [1] },
        { arcname := "go.sum", date_time := (1980, 1, 1, 0, 0, 0),
          compress_type := ZIP_STORED, external_attr := zipExternalAttr 420,
          create_system := 3, data := [2] },
        { arcname := "u/a.go", date_time := (1980, 1, 1, 0, 0, 0),
          compress_type := ZIP_STORED, external_attr := zipExternalAttr 420,
          create_system := 3, data := [97] }] : List ZipEntry),
        e.arcname = "go.mod") ∧
      (∃ e ∈ ([
        { arcname := "go.mod", date_time := (1980, 1, 1, 0, 0, 0),
          compress_type := ZIP_STORED, external_attr := zipExternalAttr 420,
          create_system := 3, data := [1] },
        { arcname := "go.sum", date_time := (1980, 1, 1, 0, 0, 0),
          compress_type := ZIP_STORED, external_attr := zipExternalAttr 420,
          create_system := 3, data := [2] },
        { arcname := "u/a.go", date_time := (1980, 1, 1, 0, 0, 0),
          compress_type := ZIP_STORED, external_attr := zipExternalAttr 420,
          create_system := 3, data := [97] }] : List ZipEntry),
        e.arcname = "go.sum")) ∧
    resultOk (create_function_zip "u" srcNoManifest none true 3 ltA) = false :=
  ⟨(C9_manifests_mandatory "u" srcExample none true 3 ltA).1 _ rfl,
   (C9_manifests_mandatory "u" srcNoManifest none true 3 ltA).2 (Or.inl rfl)⟩

end BuildZips

namespace GenTestData

theorem pyTrunc_lower {x : ℝ} (h : -20 ≤ x) : (-20 : ℤ) ≤ pyTrunc x := by
  unfold pyTrunc
  split
  · have h0 : (0 : ℤ) ≤ ⌊x⌋ := Int.floor_nonneg.mpr (by assumption)
    omega
  · calc (-20 : ℤ) = ⌈((-20 : ℤ) : ℝ)⌉ := by rw [Int.ceil_intCast]
      _ ≤ ⌈x⌉ := Int.ceil_le_ceil (by exact_mod_cast h)

theorem pyTrunc_upper {x : ℝ} (h : x ≤ 20) : pyTrunc x ≤ 20 := by
  unfold pyTrunc
  split
  · calc ⌊x⌋ ≤ ⌊(20 : ℝ)⌋ := Int.floor_le_floor h
      _ = 20 := by norm_num
  · have hx : x ≤ ((0 : ℤ) : ℝ) := by
      push_cast
      linarith [not_le.mp (by assumption)]
    calc ⌈x⌉ ≤ ⌈((0 : ℤ) : ℝ)⌉ := Int.ceil_le_ceil hx
      _ = 0 := Int.ceil_intCast 0
      _ ≤ 20 := by norm_num

/-- The sine-wave heart rate stays in the band `[120, 160]` around 140. -/
theorem sineHR_bounds (i : ℕ) : 120 ≤ sineHR i ∧ sineHR i ≤ 160 := by
  have hs1 : -1 ≤ Real.sin ((i : ℝ) / 10) := Real.neg_one_le_sin _
  have hs2 : Real.sin ((i : ℝ) / 10) ≤ 1 := Real.sin_le_one _
  have h1 : (-20 : ℝ) ≤ 20 * Real.sin ((i : ℝ) / 10) := by nlinarith
  have h2 : 20 * Real.sin ((i : ℝ) / 10) ≤ 20 := by nlinarith
  unfold sineHR
  have hl := pyTrunc_lower h1
  have hu := pyTrunc_upper h2
  omega

/-- C10.  `heart_rate` equals `static_hr` only when `static_hr` is truthy:
for every call with `has_hr=True` and `static_hr=0`, every generated record
carries the sine-wave heart rate around 140 (in `[120, 160]`, hence nonzero)
rather than the constant 0, because the override is guarded by Python
truthiness (`if static_hr:`) rather than an is-not-None check. -/
theorem C10_static_hr_truthiness (i : ℕ) :
    generate_activity_heart_rate true (some 0) i = some (sineHR i) ∧
    120 ≤ sineHR i ∧ sineHR i ≤ 160 ∧
    generate_activity_heart_rate true (some 0) i ≠ some 0 := by
  have hb := sineHR_bounds i
  refine ⟨rfl, hb.1, hb.2, fun h => ?_⟩
  have : sineHR i = 0 := Option.some.inj h
  omega

end GenTestData
